import Mathlib

/-!
Shallow embedding of the SiFive UART driver (`chips/sifive/src/uart.rs`).

The driver state (`Uart` struct) and the memory-mapped registers it writes
are modelled as one explicit record `UartState`.  Hardware inputs — the
FIFO-full flag read after each write to the transmit-data register, and the
pending-interrupt flags — are supplied as parameters: the full-flag reads
of one operation are a `List Bool` consumed positionally (readings past the
end of the list default to `false`, i.e. not full).  Observable effects
(writes to the transmit-data register, completion callbacks to the
registered transmit client) are returned as an explicit trace.  Rust
panics (out-of-bounds indexing, division by zero, guarded `u32`
underflow) are modelled by returning `none`.
-/

namespace SifiveUart

/-- `kernel::ErrorCode` — only the variants this driver uses. -/
inductive ErrorCode where
  | SIZE
  | NOSUPPORT
  | FAIL
  deriving DecidableEq, Repr

/-- `hil::uart::StopBits`. -/
inductive StopBits where
  | one
  | two
  deriving DecidableEq, Repr

/-- `hil::uart::Parity`. -/
inductive Parity where
  | none
  | odd
  | even
  deriving DecidableEq, Repr

/-- The fields of `hil::uart::Parameters` that `configure` reads. -/
structure Parameters where
  baud_rate : Nat
  stop_bits : StopBits
  parity : Parity
  hw_flow_control : Bool
  deriving DecidableEq, Repr

deriving instance DecidableEq for Except

/-- One invocation of `client.transmitted_buffer(buffer, len, res)`. -/
structure Callback where
  buf : List Nat
  len : Nat
  res : Except ErrorCode Unit
  deriving DecidableEq, Repr

/-- Observable effects of one driver operation: the bytes written to the
transmit-data register (in order) and the completion callbacks issued. -/
structure Trace where
  writes : List Nat
  callbacks : List Callback
  deriving DecidableEq, Repr

/-- Driver state (`Uart` struct fields) together with the peripheral
registers the transmit path writes.  `tx_client` records whether a
transmit client is registered; `buffer`, `len`, `index` are the
`TakeCell`/`Cell` fields; `div`, `ie_txwm`, `txctrl` are the baud-divisor
register, the transmit-watermark bit of the interrupt-enable register and
the raw value of the transmit-control register. -/
structure UartState where
  clock_frequency : Nat
  stop_bits : StopBits
  tx_client : Bool
  buffer : Option (List Nat)
  len : Nat
  index : Nat
  div : Nat
  ie_txwm : Bool
  txctrl : Nat
  deriving DecidableEq, Repr

/-- `Uart::new`: empty client slots, one stop bit, empty buffer slot,
`len = index = 0`; registers at their reset value. -/
def uartNew (clock_frequency : Nat) : UartState :=
  { clock_frequency := clock_frequency
    stop_bits := .one
    tx_client := false
    buffer := Option.none
    len := 0
    index := 0
    div := 0
    ie_txwm := false
    txctrl := 0 }

/-- The bit of the `nstop` field encoding a stop-bit mode
(`OneStopBit = 0`, `TwoStopBits = 1`). -/
def nstopBit : StopBits → Nat
  | .one => 0
  | .two => 1

/-- Value written to the transmit-control register by
`txctrl.write(txen + nstop + txcnt.val(cnt))`: `txcnt` at bits 16–18,
`nstop` at bit 1, `txen` at bit 0. -/
def txctrlValue (en : Bool) (sb : StopBits) (cnt : Nat) : Nat :=
  (cnt % 8) * 65536 + nstopBit sb * 2 + (if en then 1 else 0)

/-- `Uart::set_baud_rate`, guarded: `none` models the panic on
division by zero (`baud_rate = 0`) and the `u32` underflow of
`(clock_frequency / baud_rate) - 1` when the quotient is zero.  The
`div` field of the divisor register is 16 bits wide, so the written
value is masked to 16 bits. -/
def set_baud_rate (st : UartState) (baud_rate : Nat) : Option UartState :=
  if baud_rate = 0 then Option.none
  else if st.clock_frequency / baud_rate = 0 then Option.none
  else some { st with div := (st.clock_frequency / baud_rate - 1) % 65536 }

/-- `Uart::enable_tx_interrupt`: read-modify-write setting the `txwm` bit
of the interrupt-enable register. -/
def enable_tx_interrupt (st : UartState) : UartState :=
  { st with ie_txwm := true }

/-- `Uart::disable_tx_interrupt`: read-modify-write clearing the `txwm`
bit of the interrupt-enable register. -/
def disable_tx_interrupt (st : UartState) : UartState :=
  { st with ie_txwm := false }

/-- The FIFO-full reading returned by the hardware for the `r`-th read of
`txdata::full` during one operation; past the end of the recorded stream
the FIFO reports not-full. -/
def fullAt (fulls : List Bool) (r : Nat) : Bool :=
  fulls.getD r false

/-- The shared fill loop of `transmit_buffer` and `handle_interrupt`:
`for i in i0..stop { write(buf[i]); index = i + 1; if full { break } }`.
`fuel` is `stop - i`; `r` counts the full-flag reads already made during
this operation.  Returns the final value of `index` and the bytes written
(each masked to 8 bits by the `data` field), or `none` when `buf[i]`
indexes out of bounds (a Rust panic). -/
def fillLoopAux (buf : List Nat) (fulls : List Bool) :
    Nat → Nat → Nat → Option (Nat × List Nat)
  | 0, i, _ => some (i, [])
  | fuel + 1, i, r =>
    match buf[i]? with
    | Option.none => Option.none
    | some b =>
      if fullAt fulls r then some (i + 1, [b % 256])
      else
        match fillLoopAux buf fulls fuel (i + 1) (r + 1) with
        | Option.none => Option.none
        | some (j, ws) => some (j, b % 256 :: ws)

/-- Fill loop from index `i0` up to `stop`, full-flag reads starting at
position 0 of this operation's stream. -/
def fillLoop (buf : List Nat) (fulls : List Bool) (i0 stop : Nat) :
    Option (Nat × List Nat) :=
  fillLoopAux buf fulls (stop - i0) i0 0

/-- `Transmit::transmit_buffer`.  Returns `none` on panic; otherwise the
new state, the trace, and the Rust return value (`Err` carries the buffer
back to the caller). -/
def transmit_buffer (st : UartState) (tx_data : List Nat) (tx_len : Nat)
    (fulls : List Bool) :
    Option (UartState × Trace × Except (ErrorCode × List Nat) Unit) :=
  if tx_len = 0 then
    some (st, ⟨[], []⟩, .error (.SIZE, tx_data))
  else
    let st1 := enable_tx_interrupt st
    match fillLoop tx_data fulls 0 tx_len with
    | Option.none => Option.none
    | some (j, ws) =>
      let st2 := { st1 with
        index := j
        buffer := some tx_data
        len := tx_len
        txctrl := txctrlValue true st.stop_bits 1 }
      some (st2, ⟨ws, []⟩, .ok ())

/-- `Uart::handle_interrupt`.  `txwm_pending` is the `txwm` bit of the
snapshot of the interrupt-pending register; `fulls` is the stream of
FIFO-full readings for this invocation. -/
def handle_interrupt (st : UartState) (txwm_pending : Bool)
    (fulls : List Bool) : Option (UartState × Trace) :=
  if txwm_pending then
    if st.len = st.index then
      if st.tx_client then
        match st.buffer with
        | some buf =>
          some ({ disable_tx_interrupt { st with txctrl := 0 } with
                  buffer := Option.none },
                ⟨[], [⟨buf, st.len, .ok ()⟩]⟩)
        | Option.none =>
          some (disable_tx_interrupt { st with txctrl := 0 }, ⟨[], []⟩)
      else some (disable_tx_interrupt { st with txctrl := 0 }, ⟨[], []⟩)
    else
      match st.buffer with
      | Option.none => some (st, ⟨[], []⟩)
      | some buf =>
        match fillLoop buf fulls st.index st.len with
        | Option.none => Option.none
        | some (j, ws) => some ({ st with index := j }, ⟨ws, []⟩)
  else some (st, ⟨[], []⟩)

/-- `Configure::configure`. -/
def configure (st : UartState) (params : Parameters) :
    Option (UartState × Except ErrorCode Unit) :=
  if params.parity ≠ .none then some (st, .error .NOSUPPORT)
  else if params.hw_flow_control then some (st, .error .NOSUPPORT)
  else
    match set_baud_rate st params.baud_rate with
    | Option.none => Option.none
    | some st1 => some ({ st1 with stop_bits := params.stop_bits }, .ok ())

/-- `Transmit::set_transmit_client`. -/
def set_transmit_client (st : UartState) : UartState :=
  { st with tx_client := true }

/-- The busy-wait `while regs.txdata.is_set(txdata::full) {}` of
`transmit_sync`, with explicit fuel: past the end of the recorded stream
the FIFO reports not-full, so the loop stops within
`fulls.length - r` iterations. -/
def busyWaitAux (fulls : List Bool) : Nat → Nat → Nat
  | 0, r => r
  | fuel + 1, r => if fullAt fulls r then busyWaitAux fulls fuel (r + 1) else r

/-- Starting from read position `r`, the position of the first not-full
reading of the FIFO-full flag. -/
def busyWait (fulls : List Bool) (r : Nat) : Nat :=
  busyWaitAux fulls (fulls.length - r) r

/-- The per-byte loop of `transmit_sync`: for each byte, busy-wait until a
not-full reading, then write the byte.  Returns, for each byte, the value
written and the position of the not-full reading observed just before the
write. -/
def syncLoop (fulls : List Bool) : List Nat → Nat → List (Nat × Nat)
  | [], _ => []
  | b :: rest, r =>
    let r2 := busyWait fulls r
    (b % 256, r2) :: syncLoop fulls rest (r2 + 1)

/-- `Uart::transmit_sync`: programs the transmit-control register
(transmitter enabled, one stop bit, trigger count one) and then writes
every byte, busy-waiting on the full flag before each write. -/
def transmit_sync (st : UartState) (bytes : List Nat) (fulls : List Bool) :
    UartState × List (Nat × Nat) :=
  ({ st with txctrl := txctrlValue true .one 1 }, syncLoop fulls bytes 0)

/-- Driver operations, each carrying its hardware inputs, for the
reachable-state relation. -/
inductive Action where
  | configureA (params : Parameters)
  | transmitBufferA (tx_data : List Nat) (tx_len : Nat) (fulls : List Bool)
  | handleInterruptA (txwm_pending : Bool) (fulls : List Bool)
  | setTransmitClientA
  | transmitSyncA (bytes : List Nat) (fulls : List Bool)

/-- One driver operation as a state transformer; `none` when the
operation panics. -/
def step (st : UartState) : Action → Option UartState
  | .configureA p => (configure st p).map Prod.fst
  | .transmitBufferA d l fulls => (transmit_buffer st d l fulls).map Prod.fst
  | .handleInterruptA p fulls => (handle_interrupt st p fulls).map Prod.fst
  | .setTransmitClientA => some (set_transmit_client st)
  | .transmitSyncA bytes fulls => some (transmit_sync st bytes fulls).fst

/-- States reachable from `st0` by sequences of driver operations. -/
inductive Reachable (st0 : UartState) : UartState → Prop where
  | refl : Reachable st0 st0
  | tail {st st' : UartState} (a : Action) :
      Reachable st0 st → step st a = some st' → Reachable st0 st'

/-- The inductive invariant of the transmit engine when a transmit client
is registered: the cursor stays within the recorded length and the buffer
slot is occupied exactly when the transmit-watermark interrupt is
enabled. -/
def ClientInv (st : UartState) : Prop :=
  st.tx_client = true ∧ st.index ≤ st.len ∧ st.buffer.isSome = st.ie_txwm

end SifiveUart

namespace SifiveUart

/-- Bounds on the final cursor of the fill loop: it never moves backwards,
advances at most `fuel` positions, and advances at least once when the
loop body runs at all. -/
theorem fillLoopAux_bound (buf : List Nat) (fulls : List Bool) :
    ∀ fuel i r j ws, fillLoopAux buf fulls fuel i r = some (j, ws) →
      i ≤ j ∧ j ≤ i + fuel ∧ (0 < fuel → i < j) := by
  intro fuel
  induction fuel with
  | zero =>
    intro i r j ws h
    simp [fillLoopAux] at h
    omega
  | succ n ih =>
    intro i r j ws h
    rw [fillLoopAux] at h
    split at h
    · exact absurd h (by simp)
    · split at h
      · simp at h
        omega
      · split at h
        · exact absurd h (by simp)
        · rename_i j' ws' hrec
          simp at h
          obtain ⟨hj, -⟩ := h
          have hb := ih (i + 1) (r + 1) j' ws' hrec
          omega

/-- Full functional characterization of the fill loop on an in-bounds
range: it succeeds, the bytes written are exactly the slice of the buffer
between the initial and final cursor, the loop stops early exactly when a
full reading is observed, and every reading before the stopping one was
not-full. -/
theorem fillLoopAux_spec (buf : List Nat) (fulls : List Bool) :
    ∀ fuel i r, i + fuel ≤ buf.length →
      ∃ j ws, fillLoopAux buf fulls fuel i r = some (j, ws) ∧
        i ≤ j ∧ j ≤ i + fuel ∧
        ws = ((buf.drop i).take (j - i)).map (fun b => b % 256) ∧
        (0 < fuel → i < j) ∧
        (j < i + fuel → fullAt fulls (r + (j - i) - 1) = true) ∧
        ∀ k, r ≤ k → k + 1 < r + (j - i) → fullAt fulls k = false := by
  intro fuel
  induction fuel with
  | zero =>
    intro i r _
    exact ⟨i, [], rfl, le_refl i, by omega, by simp, by omega, by omega,
      fun k hk1 hk2 => absurd hk2 (by omega)⟩
  | succ n ih =>
    intro i r h
    have hi : i < buf.length := by omega
    have hb : buf[i]? = some buf[i] := List.getElem?_eq_getElem hi
    have htake : (buf.drop i).take 1 = [buf[i]] := by
      rw [List.drop_eq_getElem_cons hi]
      rfl
    by_cases hf : fullAt fulls r = true
    · refine ⟨i + 1, [buf[i] % 256], ?_, by omega, by omega, ?_, by omega, ?_, ?_⟩
      · rw [fillLoopAux, hb]
        simp only [hf, if_true]
      · rw [show i + 1 - i = 1 by omega, htake]
        rfl
      · intro _
        rw [show r + (i + 1 - i) - 1 = r by omega]
        exact hf
      · intro k hk1 hk2
        exact absurd hk2 (by omega)
    · obtain ⟨j, ws', hrec, hj1, hj2, hws, hpos, hbrk, hpre⟩ :=
        ih (i + 1) (r + 1) (by omega)
      refine ⟨j, buf[i] % 256 :: ws', ?_, by omega, by omega, ?_, by omega, ?_, ?_⟩
      · rw [fillLoopAux, hb]
        rw [Bool.not_eq_true] at hf
        simp only [hf, Bool.false_eq_true, if_false, hrec]
      · rw [List.drop_eq_getElem_cons hi, show j - i = (j - (i + 1)) + 1 by omega,
          List.take_succ_cons, List.map_cons, hws]
      · intro hlt
        have hx := hbrk (by omega)
        rw [show r + 1 + (j - (i + 1)) - 1 = r + (j - i) - 1 by omega] at hx
        exact hx
      · intro k hk1 hk2
        rcases Nat.eq_or_lt_of_le hk1 with heq | hlt
        · rw [Bool.not_eq_true] at hf
          rw [← heq]
          exact hf
        · exact hpre k (by omega) (by omega)

/-- `fillLoop` characterization on an in-bounds range `[i0, stop)`. -/
theorem fillLoop_spec (buf : List Nat) (fulls : List Bool) (i0 stop : Nat)
    (h1 : i0 ≤ stop) (h2 : stop ≤ buf.length) :
    ∃ j ws, fillLoop buf fulls i0 stop = some (j, ws) ∧
      i0 ≤ j ∧ j ≤ stop ∧
      ws = ((buf.drop i0).take (j - i0)).map (fun b => b % 256) ∧
      (i0 < stop → i0 < j) ∧
      (j < stop → fullAt fulls (j - i0 - 1) = true) ∧
      ∀ k, k + 1 < j - i0 → fullAt fulls k = false := by
  obtain ⟨j, ws, hres, hj1, hj2, hws, hpos, hbrk, hpre⟩ :=
    fillLoopAux_spec buf fulls (stop - i0) i0 0 (by omega)
  refine ⟨j, ws, hres, hj1, by omega, hws, by omega, ?_, ?_⟩
  · intro hlt
    have hx := hbrk (by omega)
    rw [show 0 + (j - i0) - 1 = j - i0 - 1 by omega] at hx
    exact hx
  · intro k hk
    exact hpre k (by omega) (by omega)

/-- Cursor bounds for `fillLoop` with no in-bounds assumption (the loop
may also succeed on an out-of-range request by breaking early). -/
theorem fillLoop_bound (buf : List Nat) (fulls : List Bool) (i0 stop j : Nat)
    (ws : List Nat) (h : fillLoop buf fulls i0 stop = some (j, ws)) :
    i0 ≤ j ∧ j ≤ i0 + (stop - i0) ∧ (i0 < stop → i0 < j) := by
  have hb := fillLoopAux_bound buf fulls (stop - i0) i0 0 j ws h
  omega

end SifiveUart

namespace SifiveUart

/-- Past the end of the recorded full-flag stream the FIFO reports
not-full. -/
theorem fullAt_of_le (fulls : List Bool) (r : Nat)
    (h : fulls.length ≤ r) : fullAt fulls r = false := by
  rw [fullAt, List.getD, List.get?_eq_none.mpr h]
  rfl

/-- The fueled busy-wait stops at a not-full reading as long as the fuel
covers the remaining recorded stream. -/
theorem fullAt_busyWaitAux (fulls : List Bool) :
    ∀ fuel r, fulls.length ≤ r + fuel →
      fullAt fulls (busyWaitAux fulls fuel r) = false := by
  intro fuel
  induction fuel with
  | zero =>
    intro r h
    exact fullAt_of_le fulls r (by omega)
  | succ n ih =>
    intro r h
    rw [busyWaitAux]
    by_cases hf : fullAt fulls r = true
    · rw [if_pos hf]
      exact ih (r + 1) (by omega)
    · rw [if_neg hf, Bool.not_eq_true] at *
      exact hf

/-- The busy-wait of `transmit_sync` stops at a not-full reading. -/
theorem fullAt_busyWait (fulls : List Bool) (r : Nat) :
    fullAt fulls (busyWait fulls r) = false :=
  fullAt_busyWaitAux fulls (fulls.length - r) r (by omega)

/-- The values written by the per-byte loop of `transmit_sync` are exactly
the input bytes (masked to 8 bits), in order. -/
theorem syncLoop_map_fst (fulls : List Bool) :
    ∀ (bytes : List Nat) (r : Nat),
      (syncLoop fulls bytes r).map Prod.fst = bytes.map (fun b => b % 256) := by
  intro bytes
  induction bytes with
  | nil => intro r; rfl
  | cons b rest ih =>
    intro r
    simp only [syncLoop, List.map_cons, ih]

/-- Every write of the per-byte loop of `transmit_sync` happens right
after a not-full reading of the FIFO-full flag. -/
theorem syncLoop_not_full (fulls : List Bool) :
    ∀ (bytes : List Nat) (r : Nat) (p : Nat × Nat),
      p ∈ syncLoop fulls bytes r → fullAt fulls p.2 = false := by
  intro bytes
  induction bytes with
  | nil =>
    intro r p hp
    exact absurd hp (List.not_mem_nil p)
  | cons b rest ih =>
    intro r p hp
    rcases List.mem_cons.mp hp with heq | hmem
    · rw [heq]
      exact fullAt_busyWait fulls r
    · exact ih (busyWait fulls r + 1) p hmem

/-- `configure` never touches the client slots, the buffer slot, the
cursor, the length, the interrupt-enable register or the transmit-control
register: a successful or failing call changes at most the divisor
register and the recorded stop-bit mode. -/
theorem configure_state (st : UartState) (p : Parameters)
    (pr : UartState × Except ErrorCode Unit) (h : configure st p = some pr) :
    pr.1.tx_client = st.tx_client ∧ pr.1.buffer = st.buffer ∧
    pr.1.index = st.index ∧ pr.1.len = st.len ∧
    pr.1.ie_txwm = st.ie_txwm ∧ pr.1.txctrl = st.txctrl ∧
    pr.1.clock_frequency = st.clock_frequency := by
  rw [configure] at h
  split at h
  · rw [Option.some_inj] at h
    rw [← h]
    exact ⟨rfl, rfl, rfl, rfl, rfl, rfl, rfl⟩
  · split at h
    · rw [Option.some_inj] at h
      rw [← h]
      exact ⟨rfl, rfl, rfl, rfl, rfl, rfl, rfl⟩
    · split at h
      · exact absurd h (by simp)
      · rename_i st1 heq
        rw [set_baud_rate] at heq
        split at heq
        · exact absurd heq (by simp)
        · split at heq
          · exact absurd heq (by simp)
          · rw [Option.some_inj] at heq
            rw [Option.some_inj] at h
            rw [← h, ← heq]
            exact ⟨rfl, rfl, rfl, rfl, rfl, rfl, rfl⟩

/-- Shape of a non-panicking `transmit_buffer` call: either the
zero-length error leaving the state untouched, or success with the
interrupt enabled, the buffer and length stored, the transmit-control
register programmed, and the cursor ending between 1 and `tx_len`. -/
theorem transmit_buffer_state (st : UartState) (tx_data : List Nat)
    (tx_len : Nat) (fulls : List Bool)
    (pr : UartState × Trace × Except (ErrorCode × List Nat) Unit)
    (h : transmit_buffer st tx_data tx_len fulls = some pr) :
    (tx_len = 0 ∧ pr.1 = st) ∨
    (0 < tx_len ∧ ∃ j, 1 ≤ j ∧ j ≤ tx_len ∧
      pr.1 = { st with
               ie_txwm := true
               index := j
               buffer := some tx_data
               len := tx_len
               txctrl := txctrlValue true st.stop_bits 1 }) := by
  rw [transmit_buffer] at h
  split at h
  · rename_i h0
    rw [Option.some_inj] at h
    exact Or.inl ⟨h0, by rw [← h]⟩
  · rename_i h0
    split at h
    · exact absurd h (by simp)
    · rename_i j ws hfill
      have hb := fillLoop_bound tx_data fulls 0 tx_len j ws hfill
      rw [Option.some_inj] at h
      refine Or.inr ⟨by omega, j, by omega, by omega, ?_⟩
      rw [← h]
      rfl

/-- Shape of a non-panicking `handle_interrupt` call, as far as the
resulting state is concerned. -/
theorem handle_interrupt_state (st : UartState) (p : Bool)
    (fulls : List Bool) (pr : UartState × Trace)
    (h : handle_interrupt st p fulls = some pr) :
    pr.1 = st ∨
    (p = true ∧ st.len = st.index ∧
      (pr.1 = { st with txctrl := 0, ie_txwm := false } ∨
       pr.1 = { st with
                txctrl := 0
                ie_txwm := false
                buffer := Option.none })) ∨
    (p = true ∧ st.len ≠ st.index ∧ st.buffer.isSome = true ∧
      ∃ j, st.index ≤ j ∧ j ≤ st.index + (st.len - st.index) ∧
        pr.1 = { st with index := j }) := by
  rw [handle_interrupt] at h
  split at h
  · rename_i hp
    split at h
    · rename_i hlen
      split at h
      · split at h
        · rename_i buf hbuf
          rw [Option.some_inj] at h
          refine Or.inr (Or.inl ⟨hp, hlen, Or.inr ?_⟩)
          rw [← h]
          rfl
        · rw [Option.some_inj] at h
          refine Or.inr (Or.inl ⟨hp, hlen, Or.inl ?_⟩)
          rw [← h]
          rfl
      · rw [Option.some_inj] at h
        refine Or.inr (Or.inl ⟨hp, hlen, Or.inl ?_⟩)
        rw [← h]
        rfl
    · rename_i hlen
      split at h
      · rw [Option.some_inj] at h
        exact Or.inl (by rw [← h])
      · rename_i buf hbuf
        split at h
        · exact absurd h (by simp)
        · rename_i j ws hfill
          have hb := fillLoop_bound buf fulls st.index st.len j ws hfill
          rw [Option.some_inj] at h
          refine Or.inr (Or.inr ⟨hp, hlen, by rw [hbuf]; rfl, j, by omega,
            by omega, ?_⟩)
          rw [← h]
  · rw [Option.some_inj] at h
    exact Or.inl (by rw [← h])

end SifiveUart

namespace SifiveUart

/-- `transmit_buffer` never issues a completion callback synchronously. -/
theorem transmit_buffer_callbacks (st : UartState) (tx_data : List Nat)
    (tx_len : Nat) (fulls : List Bool)
    (pr : UartState × Trace × Except (ErrorCode × List Nat) Unit)
    (h : transmit_buffer st tx_data tx_len fulls = some pr) :
    pr.2.1.callbacks = [] := by
  rw [transmit_buffer] at h
  split at h
  · rw [Option.some_inj] at h
    rw [← h]
  · split at h
    · exact absurd h (by simp)
    · rw [Option.some_inj] at h
      rw [← h]

/-- `handle_interrupt` issues a callback only on the completed-transmit
path — watermark pending, client registered, cursor equal to length,
buffer present — and then exactly one, carrying the stored buffer, the
recorded length and a success result. -/
theorem handle_interrupt_callbacks (st : UartState) (p : Bool)
    (fulls : List Bool) (pr : UartState × Trace)
    (h : handle_interrupt st p fulls = some pr)
    (hne : pr.2.callbacks ≠ []) :
    p = true ∧ st.tx_client = true ∧ st.len = st.index ∧
    ∃ buf, st.buffer = some buf ∧
      pr.2.callbacks = [⟨buf, st.len, .ok ()⟩] := by
  rw [handle_interrupt] at h
  split at h
  · rename_i hp
    split at h
    · rename_i hlen
      split at h
      · rename_i hcl
        split at h
        · rename_i buf hbuf
          rw [Option.some_inj] at h
          exact ⟨hp, hcl, hlen, buf, hbuf, by rw [← h]⟩
        · rw [Option.some_inj] at h
          exact absurd (by rw [← h] : pr.2.callbacks = []) hne
      · rw [Option.some_inj] at h
        exact absurd (by rw [← h] : pr.2.callbacks = []) hne
    · split at h
      · rw [Option.some_inj] at h
        exact absurd (by rw [← h] : pr.2.callbacks = []) hne
      · split at h
        · exact absurd h (by simp)
        · rw [Option.some_inj] at h
          exact absurd (by rw [← h] : pr.2.callbacks = []) hne
  · rw [Option.some_inj] at h
    exact absurd (by rw [← h] : pr.2.callbacks = []) hne

/-- `handle_interrupt` never moves the cursor backwards and never moves
it past the recorded length. -/
theorem handle_interrupt_index (st : UartState) (p : Bool)
    (fulls : List Bool) (pr : UartState × Trace)
    (h : handle_interrupt st p fulls = some pr) (hle : st.index ≤ st.len) :
    st.index ≤ pr.1.index ∧ pr.1.index ≤ st.len := by
  rcases handle_interrupt_state st p fulls pr h with
    h1 | ⟨-, -, h1 | h1⟩ | ⟨-, -, -, j, hj1, hj2, h1⟩
  · rw [h1]
    omega
  · rw [h1]
    exact ⟨le_refl _, hle⟩
  · rw [h1]
    exact ⟨le_refl _, hle⟩
  · rw [h1]
    show st.index ≤ j ∧ j ≤ st.len
    omega

/-- With the transmit-watermark flag not pending, `handle_interrupt` is a
no-op. -/
theorem handle_interrupt_not_pending (st : UartState) (fulls : List Bool) :
    handle_interrupt st false fulls = some (st, ⟨[], []⟩) :=
  rfl

/-- Completed-transmit path with a registered client and a stored buffer:
transmitter disabled, watermark interrupt disabled, buffer slot emptied,
exactly one callback carrying the buffer, the recorded length and a
success result. -/
theorem handle_interrupt_done_some (st : UartState) (fulls : List Bool)
    (buf : List Nat) (hlen : st.len = st.index) (hcl : st.tx_client = true)
    (hbuf : st.buffer = some buf) :
    handle_interrupt st true fulls =
      some ({ st with
              txctrl := 0
              ie_txwm := false
              buffer := Option.none },
            ⟨[], [⟨buf, st.len, .ok ()⟩]⟩) := by
  rw [handle_interrupt, if_pos rfl, if_pos hlen, if_pos hcl, hbuf]
  rfl

/-- Completed-transmit path with no stored buffer: the registers are
still written but no callback is issued. -/
theorem handle_interrupt_done_none (st : UartState) (fulls : List Bool)
    (hlen : st.len = st.index) (hbuf : st.buffer = Option.none) :
    handle_interrupt st true fulls =
      some ({ st with txctrl := 0, ie_txwm := false }, ⟨[], []⟩) := by
  rw [handle_interrupt, if_pos rfl, if_pos hlen, hbuf]
  by_cases hcl : st.tx_client = true
  · rw [if_pos hcl]
    rfl
  · rw [if_neg hcl]
    rfl

/-- Completed-transmit path with no registered client: the registers are
still written, no callback is issued, and the buffer slot is not
emptied. -/
theorem handle_interrupt_done_noclient (st : UartState) (fulls : List Bool)
    (hlen : st.len = st.index) (hcl : st.tx_client = false) :
    handle_interrupt st true fulls =
      some ({ st with txctrl := 0, ie_txwm := false }, ⟨[], []⟩) := by
  rw [handle_interrupt, if_pos rfl, if_pos hlen, if_neg (by rw [hcl]; simp)]
  rfl

/-- Resume-filling path with no stored buffer: complete no-op. -/
theorem handle_interrupt_fill_none (st : UartState) (fulls : List Bool)
    (hlen : st.len ≠ st.index) (hbuf : st.buffer = Option.none) :
    handle_interrupt st true fulls = some (st, ⟨[], []⟩) := by
  rw [handle_interrupt, if_pos rfl, if_neg hlen, hbuf]

/-- Resume-filling path with a stored buffer: runs the fill loop from the
cursor up to the recorded length, touching only the cursor. -/
theorem handle_interrupt_fill (st : UartState) (fulls : List Bool)
    (buf : List Nat) (j : Nat) (ws : List Nat) (hlen : st.len ≠ st.index)
    (hbuf : st.buffer = some buf)
    (hfill : fillLoop buf fulls st.index st.len = some (j, ws)) :
    handle_interrupt st true fulls =
      some ({ st with index := j }, ⟨ws, []⟩) := by
  simp [handle_interrupt, hlen, hbuf, hfill]

/-- Resume-filling path whose fill loop indexes out of bounds: the whole
call panics. -/
theorem handle_interrupt_fill_panic (st : UartState) (fulls : List Bool)
    (buf : List Nat) (hlen : st.len ≠ st.index) (hbuf : st.buffer = some buf)
    (hfill : fillLoop buf fulls st.index st.len = Option.none) :
    handle_interrupt st true fulls = Option.none := by
  simp [handle_interrupt, hlen, hbuf, hfill]

/-- Every driver operation preserves `ClientInv`. -/
theorem clientInv_step (st st' : UartState) (a : Action) (h : ClientInv st)
    (hs : step st a = some st') : ClientInv st' := by
  obtain ⟨hc, hil, hbe⟩ := h
  cases a with
  | configureA p =>
    simp only [step, Option.map_eq_some'] at hs
    obtain ⟨pr, hpr, hfst⟩ := hs
    obtain ⟨e1, e2, e3, e4, e5, -, -⟩ := configure_state st p pr hpr
    rw [← hfst]
    exact ⟨by rw [e1, hc], by rw [e3, e4]; exact hil, by rw [e2, e5, hbe]⟩
  | transmitBufferA d l fl =>
    simp only [step, Option.map_eq_some'] at hs
    obtain ⟨pr, hpr, hfst⟩ := hs
    rcases transmit_buffer_state st d l fl pr hpr with ⟨-, h1⟩ |
      ⟨hpos, j, hj1, hj2, h1⟩
    · rw [← hfst, h1]
      exact ⟨hc, hil, hbe⟩
    · rw [← hfst, h1]
      refine ⟨hc, ?_, ?_⟩
      · show j ≤ l
        omega
      · show (some d).isSome = true
        rfl
  | handleInterruptA p fl =>
    simp only [step, Option.map_eq_some'] at hs
    obtain ⟨pr, hpr, hfst⟩ := hs
    cases p with
    | false =>
      rw [handle_interrupt_not_pending, Option.some_inj] at hpr
      rw [← hfst, ← hpr]
      exact ⟨hc, hil, hbe⟩
    | true =>
      by_cases hlen : st.len = st.index
      · cases hbuf : st.buffer with
        | none =>
          rw [handle_interrupt_done_none st fl hlen hbuf,
            Option.some_inj] at hpr
          rw [← hfst, ← hpr]
          refine ⟨hc, hil, ?_⟩
          show st.buffer.isSome = false
          rw [hbuf]
          rfl
        | some buf =>
          rw [handle_interrupt_done_some st fl buf hlen hc hbuf,
            Option.some_inj] at hpr
          rw [← hfst, ← hpr]
          refine ⟨hc, hil, ?_⟩
          show (Option.none : Option (List Nat)).isSome = false
          rfl
      · cases hbuf : st.buffer with
        | none =>
          rw [handle_interrupt_fill_none st fl hlen hbuf,
            Option.some_inj] at hpr
          rw [← hfst, ← hpr]
          exact ⟨hc, hil, hbe⟩
        | some buf =>
          cases hfill : fillLoop buf fl st.index st.len with
          | none =>
            rw [handle_interrupt_fill_panic st fl buf hlen hbuf hfill] at hpr
            exact absurd hpr (by simp)
          | some jws =>
            obtain ⟨j, ws⟩ := jws
            have hbd := fillLoop_bound buf fl st.index st.len j ws hfill
            rw [handle_interrupt_fill st fl buf j ws hlen hbuf hfill,
              Option.some_inj] at hpr
            rw [← hfst, ← hpr]
            refine ⟨hc, ?_, hbe⟩
            show j ≤ st.len
            omega
  | setTransmitClientA =>
    simp only [step, Option.some_inj] at hs
    rw [← hs]
    exact ⟨rfl, hil, hbe⟩
  | transmitSyncA bytes fl =>
    simp only [step, Option.some_inj] at hs
    rw [← hs]
    exact ⟨hc, hil, hbe⟩

/-- `ClientInv` holds in every reachable state once it holds at the
start. -/
theorem clientInv_reachable (st0 st : UartState) (h0 : ClientInv st0)
    (h : Reachable st0 st) : ClientInv st := by
  induction h with
  | refl => exact h0
  | tail a hr hs ih => exact clientInv_step _ _ a ih hs

end SifiveUart

namespace SifiveUart

/-- C1: with the transmit-watermark flag pending, a registered client, a
stored buffer and cursor equal to the total length N, `handle_interrupt`
disables the transmitter, disables the transmit-watermark interrupt,
empties the buffer slot and invokes the completion callback exactly once
with the same buffer, length N and a success result; moreover no path of
`handle_interrupt` other than this one, and no `transmit_buffer` call,
issues a completion callback. -/
theorem tock_spec_C1 (st : UartState) (buf : List Nat) (N : Nat)
    (fulls : List Bool) (hcl : st.tx_client = true)
    (hbuf : st.buffer = some buf) (hN : st.len = N) (hidx : st.index = N) :
    handle_interrupt st true fulls =
      some ({ st with
              txctrl := 0
              ie_txwm := false
              buffer := Option.none },
            ⟨[], [⟨buf, N, .ok ()⟩]⟩) ∧
    (∀ (st2 : UartState) (p : Bool) (fl : List Bool) (pr : UartState × Trace),
      handle_interrupt st2 p fl = some pr → pr.2.callbacks ≠ [] →
      p = true ∧ st2.tx_client = true ∧ st2.len = st2.index ∧
        ∃ b, st2.buffer = some b ∧ pr.2.callbacks = [⟨b, st2.len, .ok ()⟩]) ∧
    (∀ (st3 : UartState) (d : List Nat) (l : Nat) (fl : List Bool)
      (pr : UartState × Trace × Except (ErrorCode × List Nat) Unit),
      transmit_buffer st3 d l fl = some pr → pr.2.1.callbacks = []) := by
  subst hN
  have hlen : st.len = st.index := hidx.symm
  exact ⟨handle_interrupt_done_some st fulls buf hlen hcl hbuf,
    fun st2 p fl pr h hne => handle_interrupt_callbacks st2 p fl pr h hne,
    fun st3 d l fl pr h => transmit_buffer_callbacks st3 d l fl pr h⟩

/-- Witness for C1 at a concrete completed transmit. -/
theorem tock_spec_C1_witness :
    handle_interrupt
      { clock_frequency := 7, stop_bits := .one, tx_client := true,
        buffer := some [65, 66], len := 2, index := 2, div := 0,
        ie_txwm := true, txctrl := 65537 } true [] =
      some ({ clock_frequency := 7, stop_bits := .one, tx_client := true,
              buffer := Option.none, len := 2, index := 2, div := 0,
              ie_txwm := false, txctrl := 0 },
            ⟨[], [⟨[65, 66], 2, .ok ()⟩]⟩) :=
  (tock_spec_C1
    { clock_frequency := 7, stop_bits := .one, tx_client := true,
      buffer := some [65, 66], len := 2, index := 2, div := 0,
      ie_txwm := true, txctrl := 65537 } [65, 66] 2 [] rfl rfl rfl rfl).1

/-- C2, as stated, is false: the fill loop of `transmit_buffer` indexes
the buffer at every position below `tx_len` until the FIFO reports full,
so a length exceeding the buffer length panics instead of returning
success — here the empty buffer with requested length 1. -/
theorem tock_spec_C2_counterexample :
    transmit_buffer (uartNew 16000000) [] 1 [] = Option.none := rfl

/-- C2 (amended with N bounded by the buffer length): `transmit_buffer`
enables the transmit-watermark interrupt, writes the first j bytes (each
masked to 8 bits) into the transmit-data register advancing the cursor
after each write, stops early exactly when the FIFO reports full, stores
the buffer and the total length, programs the transmit-control register
with the transmitter enabled, the configured stop-bit mode and a trigger
count of one, returns success, and issues no callback synchronously. -/
theorem tock_spec_C2 (st : UartState) (tx_data : List Nat) (tx_len : Nat)
    (fulls : List Bool) (h0 : 0 < tx_len) (hle : tx_len ≤ tx_data.length) :
    ∃ j,
      transmit_buffer st tx_data tx_len fulls =
        some ({ st with
                ie_txwm := true
                index := j
                buffer := some tx_data
                len := tx_len
                txctrl := txctrlValue true st.stop_bits 1 },
              ⟨(tx_data.take j).map (fun b => b % 256), []⟩, .ok ()) ∧
      1 ≤ j ∧ j ≤ tx_len ∧
      (j < tx_len → fullAt fulls (j - 1) = true) ∧
      (∀ k, k + 1 < j → fullAt fulls k = false) := by
  obtain ⟨j, ws, hres, hj1, hj2, hws, hpos, hbrk, hpre⟩ :=
    fillLoop_spec tx_data fulls 0 tx_len (by omega) hle
  refine ⟨j, ?_, by omega, hj2, ?_, ?_⟩
  · rw [transmit_buffer, if_neg (by omega : ¬tx_len = 0), hres, hws]
    simp only [List.drop_zero, Nat.sub_zero]
    rfl
  · intro hlt
    have hx := hbrk hlt
    rw [show j - 0 - 1 = j - 1 by omega] at hx
    exact hx
  · intro k hk
    exact hpre k (by omega)

/-- Witness for C2 at a concrete accepted transmit. -/
theorem tock_spec_C2_witness :
    0 < 2 ∧ 2 ≤ [200, 5].length ∧
    ∃ j,
      transmit_buffer (uartNew 3) [200, 5] 2 [] =
        some ({ uartNew 3 with
                ie_txwm := true
                index := j
                buffer := some [200, 5]
                len := 2
                txctrl := txctrlValue true (uartNew 3).stop_bits 1 },
              ⟨([200, 5].take j).map (fun b => b % 256), []⟩, .ok ()) ∧
      1 ≤ j ∧ j ≤ 2 ∧
      (j < 2 → fullAt [] (j - 1) = true) ∧
      (∀ k, k + 1 < j → fullAt [] k = false) :=
  ⟨by decide, by decide,
   tock_spec_C2 (uartNew 3) [200, 5] 2 [] (by decide) (by decide)⟩

/-- C3: with the transmit-watermark flag pending, a stored buffer and
cursor strictly below the total length, `handle_interrupt` writes bytes
from the cursor towards the total length, advancing the cursor after each
write, breaks out exactly when the FIFO reports full, leaves every other
state component — in particular the transmit-watermark interrupt enable —
unchanged, and issues no callback. -/
theorem tock_spec_C3 (st : UartState) (buf : List Nat) (fulls : List Bool)
    (hbuf : st.buffer = some buf) (hlt : st.index < st.len)
    (hle : st.len ≤ buf.length) :
    ∃ j,
      handle_interrupt st true fulls =
        some ({ st with index := j },
              ⟨((buf.drop st.index).take (j - st.index)).map
                (fun b => b % 256), []⟩) ∧
      st.index < j ∧ j ≤ st.len ∧
      (j < st.len → fullAt fulls (j - st.index - 1) = true) ∧
      (∀ k, k + 1 < j - st.index → fullAt fulls k = false) := by
  obtain ⟨j, ws, hres, hj1, hj2, hws, hpos, hbrk, hpre⟩ :=
    fillLoop_spec buf fulls st.index st.len (by omega) hle
  refine ⟨j, ?_, hpos (by omega), hj2, hbrk, hpre⟩
  rw [handle_interrupt_fill st fulls buf j ws (by omega) hbuf hres, hws]

/-- Witness for C3 at a concrete resumed transmit. -/
theorem tock_spec_C3_witness :
    ∃ j,
      handle_interrupt
        { clock_frequency := 0, stop_bits := .one, tx_client := true,
          buffer := some [9, 10], len := 2, index := 1, div := 0,
          ie_txwm := true, txctrl := 65537 } true [] =
        some ({ ({ clock_frequency := 0, stop_bits := .one, tx_client := true,
                   buffer := some [9, 10], len := 2, index := 1, div := 0,
                   ie_txwm := true, txctrl := 65537 } : UartState) with
                index := j },
              ⟨(([9, 10].drop 1).take (j - 1)).map (fun b => b % 256), []⟩) ∧
      1 < j ∧ j ≤ 2 ∧
      (j < 2 → fullAt [] (j - 1 - 1) = true) ∧
      (∀ k, k + 1 < j - 1 → fullAt [] k = false) :=
  tock_spec_C3
    { clock_frequency := 0, stop_bits := .one, tx_client := true,
      buffer := some [9, 10], len := 2, index := 1, div := 0,
      ie_txwm := true, txctrl := 65537 } [9, 10] [] rfl (by decide) (by decide)

end SifiveUart

namespace SifiveUart

/-- C4, as stated, is false: from a freshly constructed driver with no
transmit client registered, accepting a one-byte transmit and then taking
the completion interrupt reaches a state whose buffer slot is still
occupied while the transmit-watermark interrupt is disabled — the
completion path skips only the callback-and-take step when no client is
registered, stranding the buffer. -/
theorem tock_spec_C4_counterexample :
    Reachable (uartNew 0)
      { clock_frequency := 0, stop_bits := .one, tx_client := false,
        buffer := some [65], len := 1, index := 1, div := 0,
        ie_txwm := false, txctrl := 0 } ∧
    ({ clock_frequency := 0, stop_bits := .one, tx_client := false,
       buffer := some [65], len := 1, index := 1, div := 0,
       ie_txwm := false, txctrl := 0 } : UartState).buffer.isSome ≠
      ({ clock_frequency := 0, stop_bits := .one, tx_client := false,
         buffer := some [65], len := 1, index := 1, div := 0,
         ie_txwm := false, txctrl := 0 } : UartState).ie_txwm := by
  have h1 : step (uartNew 0) (Action.transmitBufferA [65] 1 []) =
      some { clock_frequency := 0, stop_bits := .one, tx_client := false,
             buffer := some [65], len := 1, index := 1, div := 0,
             ie_txwm := true, txctrl := 65537 } := by decide
  have h2 : step
      { clock_frequency := 0, stop_bits := .one, tx_client := false,
        buffer := some [65], len := 1, index := 1, div := 0,
        ie_txwm := true, txctrl := 65537 }
      (Action.handleInterruptA true []) =
      some { clock_frequency := 0, stop_bits := .one, tx_client := false,
             buffer := some [65], len := 1, index := 1, div := 0,
             ie_txwm := false, txctrl := 0 } := by decide
  exact ⟨Reachable.tail _ (Reachable.tail _ Reachable.refl h1) h2, by decide⟩

/-- C4 (amended to runs in which a transmit client is registered before
any other operation): in every reachable state the cursor is between 0
and the recorded length and the buffer slot is occupied exactly when the
transmit-watermark interrupt is enabled; moreover any `handle_interrupt`
step never decreases the cursor and never pushes it past the recorded
length. -/
theorem tock_spec_C4 (c : Nat) (st : UartState)
    (h : Reachable (set_transmit_client (uartNew c)) st) :
    st.index ≤ st.len ∧ st.buffer.isSome = st.ie_txwm ∧
    ∀ (p : Bool) (fl : List Bool) (st' : UartState),
      step st (.handleInterruptA p fl) = some st' →
      st.index ≤ st'.index ∧ st'.index ≤ st.len := by
  have hinv := clientInv_reachable (set_transmit_client (uartNew c)) st
    ⟨rfl, Nat.le.refl, rfl⟩ h
  obtain ⟨hc, hil, hbe⟩ := hinv
  refine ⟨hil, hbe, ?_⟩
  intro p fl st' hs
  simp only [step, Option.map_eq_some'] at hs
  obtain ⟨pr, hpr, hfst⟩ := hs
  have hidx := handle_interrupt_index st p fl pr hpr hil
  rw [hfst] at hidx
  exact hidx

/-- Witness for C4 at the initial state of a client-registered run. -/
theorem tock_spec_C4_witness :
    (set_transmit_client (uartNew 0)).index ≤
      (set_transmit_client (uartNew 0)).len ∧
    (set_transmit_client (uartNew 0)).buffer.isSome =
      (set_transmit_client (uartNew 0)).ie_txwm :=
  ⟨(tock_spec_C4 0 (set_transmit_client (uartNew 0)) Reachable.refl).1,
   (tock_spec_C4 0 (set_transmit_client (uartNew 0)) Reachable.refl).2.1⟩

/-- C5, as stated, is false: the `div` field of the divisor register is
16 bits wide, so the written value is the quotient minus one reduced
modulo 65536 — with clock 131072 and baud rate 1 the computed divisor
131071 does not fit and 65535 is written instead. -/
theorem tock_spec_C5_counterexample :
    configure (uartNew 131072) ⟨1, .one, .none, false⟩ =
      some ({ uartNew 131072 with div := 65535 }, .ok ()) ∧
    (65535 : Nat) ≠ 131072 / 1 - 1 := ⟨by decide, by decide⟩

/-- C5 (amended: the divisor register receives the computed divisor
reduced modulo 65536, the width of its `div` field): for baud rate B > 0
with clock-to-baud quotient at least 1, parity none and no flow control,
`configure` writes (C / B − 1) mod 65536 to the divisor register, records
the requested stop-bit mode and returns success. -/
theorem tock_spec_C5 (st : UartState) (p : Parameters)
    (hpar : p.parity = .none) (hflow : p.hw_flow_control = false)
    (hb : 0 < p.baud_rate) (hq : 1 ≤ st.clock_frequency / p.baud_rate) :
    configure st p =
      some ({ st with
              div := (st.clock_frequency / p.baud_rate - 1) % 65536
              stop_bits := p.stop_bits }, .ok ()) := by
  rw [configure, if_neg (by simp [hpar]), if_neg (by simp [hflow]),
    set_baud_rate, if_neg (by omega), if_neg (by omega)]

/-- Witness for C5 at the documented example: clock 16 MHz, baud 115200,
divisor 137. -/
theorem tock_spec_C5_witness :
    configure (uartNew 16000000) ⟨115200, .two, .none, false⟩ =
      some ({ uartNew 16000000 with div := 137, stop_bits := .two },
            .ok ()) :=
  tock_spec_C5 (uartNew 16000000) ⟨115200, .two, .none, false⟩ rfl rfl
    (by decide) (by decide)

/-- C6: a zero-length transmit request fails with a size error carrying
back the very same buffer, with no register write, no callback and no
change to any driver state. -/
theorem tock_spec_C6 (st : UartState) (tx_data : List Nat)
    (fulls : List Bool) :
    transmit_buffer st tx_data 0 fulls =
      some (st, ⟨[], []⟩, .error (.SIZE, tx_data)) := rfl

/-- C7: `configure` with parity other than none, or with hardware flow
control requested, returns an unsupported-feature error and leaves the
full driver state — registers and recorded stop-bit mode included —
unchanged. -/
theorem tock_spec_C7 (st : UartState) (p : Parameters)
    (h : p.parity ≠ .none ∨ p.hw_flow_control = true) :
    configure st p = some (st, .error .NOSUPPORT) := by
  rw [configure]
  rcases h with h | h
  · rw [if_pos h]
  · by_cases hpar : p.parity ≠ .none
    · rw [if_pos hpar]
    · rw [if_neg hpar, if_pos h]

/-- Witness for C7 at even parity. -/
theorem tock_spec_C7_witness :
    configure (uartNew 5) ⟨9600, .one, .even, false⟩ =
      some (uartNew 5, .error .NOSUPPORT) :=
  tock_spec_C7 (uartNew 5) ⟨9600, .one, .even, false⟩ (Or.inl (by decide))

end SifiveUart

namespace SifiveUart

/-- C8, as stated, is false: a spurious transmit-watermark interrupt with
no buffer present does change the peripheral registers — when cursor
equals the recorded length the completion branch still clears the
transmit-control register (here programmed by an earlier `transmit_sync`)
and disables the transmit-watermark interrupt. -/
theorem tock_spec_C8_counterexample :
    handle_interrupt { uartNew 9 with txctrl := 65537 } true [] =
      some (uartNew 9, ⟨[], []⟩) ∧
    uartNew 9 ≠ { uartNew 9 with txctrl := 65537 } := ⟨by decide, by decide⟩

/-- C8 (amended): a transmit-watermark interrupt with no buffer present
or no client registered raises no error and issues no completion
callback, but it is not register-silent.  With no buffer present there is
no data-register write and the buffer slot, cursor and length are
unchanged: when the cursor equals the recorded length the handler still
clears the transmit-control register and disables the transmit-watermark
interrupt, and otherwise it changes nothing at all.  With a buffer
present but no client registered, the client check guards only the
callback-and-take step: when the cursor equals the recorded length the
handler clears the transmit-control register and disables the interrupt
but keeps the buffer, and when the cursor is below the length the resume
branch still writes buffered bytes into the transmit-data register and
advances the cursor, exactly as it would with a client registered. -/
theorem tock_spec_C8 (st : UartState) (fulls : List Bool) :
    (st.buffer = Option.none → st.len = st.index →
      handle_interrupt st true fulls =
        some ({ st with txctrl := 0, ie_txwm := false }, ⟨[], []⟩)) ∧
    (st.tx_client = false → st.len = st.index →
      handle_interrupt st true fulls =
        some ({ st with txctrl := 0, ie_txwm := false }, ⟨[], []⟩)) ∧
    (st.buffer = Option.none → st.len ≠ st.index →
      handle_interrupt st true fulls = some (st, ⟨[], []⟩)) ∧
    (∀ buf, st.tx_client = false → st.buffer = some buf →
      st.index < st.len → st.len ≤ buf.length →
      ∃ j,
        handle_interrupt st true fulls =
          some ({ st with index := j },
                ⟨((buf.drop st.index).take (j - st.index)).map
                  (fun b => b % 256), []⟩) ∧
        st.index < j ∧ j ≤ st.len) := by
  refine ⟨fun hb hl => handle_interrupt_done_none st fulls hl hb,
    fun hc hl => handle_interrupt_done_noclient st fulls hl hc,
    fun hb hl => handle_interrupt_fill_none st fulls hl hb,
    ?_⟩
  intro buf _ hbuf hlt hle
  obtain ⟨j, ws, hres, hj1, hj2, hws, hpos, -, -⟩ :=
    fillLoop_spec buf fulls st.index st.len (by omega) hle
  refine ⟨j, ?_, hpos (by omega), hj2⟩
  rw [handle_interrupt_fill st fulls buf j ws (by omega) hbuf hres, hws]

/-- Witness for C8: a completion-shaped spurious interrupt on a freshly
constructed driver, and a resume interrupt on a clientless in-flight
transmit that still writes and advances the cursor. -/
theorem tock_spec_C8_witness :
    (handle_interrupt (uartNew 4) true [] =
      some ({ uartNew 4 with txctrl := 0, ie_txwm := false }, ⟨[], []⟩)) ∧
    (∃ j,
      handle_interrupt
        { clock_frequency := 4, stop_bits := .one, tx_client := false,
          buffer := some [1, 2], len := 2, index := 1, div := 0,
          ie_txwm := true, txctrl := 65537 } true [] =
        some ({ ({ clock_frequency := 4, stop_bits := .one,
                   tx_client := false, buffer := some [1, 2], len := 2,
                   index := 1, div := 0, ie_txwm := true,
                   txctrl := 65537 } : UartState) with
                index := j },
              ⟨(([1, 2].drop 1).take (j - 1)).map (fun b => b % 256), []⟩) ∧
      1 < j ∧ j ≤ 2) :=
  ⟨(tock_spec_C8 (uartNew 4) []).1 rfl rfl,
   (tock_spec_C8
     { clock_frequency := 4, stop_bits := .one, tx_client := false,
       buffer := some [1, 2], len := 2, index := 1, div := 0,
       ie_txwm := true, txctrl := 65537 } []).2.2.2 [1, 2] rfl rfl
     (by decide) (by decide)⟩

/-- C9: `transmit_sync` programs the transmit-control register with the
transmitter enabled, one stop bit and a trigger count of one — touching
no other state, in particular not the interrupt-enable register and not
the buffer slot — and issues exactly one write per input byte, in order,
each masked to 8 bits and each only after a not-full reading of the
FIFO-full flag; it issues no callback. -/
theorem tock_spec_C9 (st : UartState) (bytes : List Nat)
    (fulls : List Bool) :
    (transmit_sync st bytes fulls).1 =
      { st with txctrl := txctrlValue true .one 1 } ∧
    ((transmit_sync st bytes fulls).2.map Prod.fst) =
      bytes.map (fun b => b % 256) ∧
    (transmit_sync st bytes fulls).2.length = bytes.length ∧
    ∀ p ∈ (transmit_sync st bytes fulls).2, fullAt fulls p.2 = false := by
  refine ⟨rfl, syncLoop_map_fst fulls bytes 0, ?_, ?_⟩
  · have hl := congrArg List.length (syncLoop_map_fst fulls bytes 0)
    simpa using hl
  · intro p hp
    exact syncLoop_not_full fulls bytes 0 p hp

/-- Witness for C9 at a concrete synchronous transmit with a FIFO that is
full for the first read and for the read after the first write. -/
theorem tock_spec_C9_witness :
    (transmit_sync (uartNew 2) [65, 300] [true, false, true]).1 =
      { uartNew 2 with txctrl := txctrlValue true .one 1 } ∧
    ((transmit_sync (uartNew 2) [65, 300] [true, false, true]).2.map
      Prod.fst) = [65, 300].map (fun b => b % 256) ∧
    fullAt [true, false, true] (65 % 256, 1).2 = false :=
  ⟨(tock_spec_C9 (uartNew 2) [65, 300] [true, false, true]).1,
   (tock_spec_C9 (uartNew 2) [65, 300] [true, false, true]).2.1,
   (tock_spec_C9 (uartNew 2) [65, 300] [true, false, true]).2.2.2
     (65 % 256, 1) (by decide)⟩

/-- C10: the divisor computation of `set_baud_rate` is total only under
the precondition that the baud rate is positive and the clock-to-baud
quotient is at least 1: baud rate 0 reaches the division-by-zero branch
of the guarded embedding, a zero quotient reaches the u32-underflow
branch, and under the precondition neither branch is reached; `configure`
itself performs no validation of the baud rate, so with parity none and
no flow control a zero baud rate propagates the panic. -/
theorem tock_spec_C10 (st : UartState) (b : Nat) :
    set_baud_rate st 0 = Option.none ∧
    (0 < b → st.clock_frequency / b = 0 →
      set_baud_rate st b = Option.none) ∧
    (0 < b → 1 ≤ st.clock_frequency / b →
      set_baud_rate st b =
        some { st with div := (st.clock_frequency / b - 1) % 65536 }) ∧
    ∀ p : Parameters, p.parity = .none → p.hw_flow_control = false →
      p.baud_rate = 0 → configure st p = Option.none := by
  refine ⟨rfl, ?_, ?_, ?_⟩
  · intro hb hq
    rw [set_baud_rate, if_neg (by omega), if_pos hq]
  · intro hb hq
    rw [set_baud_rate, if_neg (by omega), if_neg (by omega)]
  · intro p h1 h2 h3
    have hsb : set_baud_rate st p.baud_rate = Option.none := by
      rw [h3, set_baud_rate, if_pos rfl]
    rw [configure, if_neg (by simp [h1]), if_neg (by simp [h2]), hsb]

/-- Witness for C10: baud 0 and quotient 0 panic, the precondition makes
the computation total, and `configure` propagates the baud-0 panic. -/
theorem tock_spec_C10_witness :
    set_baud_rate (uartNew 5) 0 = Option.none ∧
    set_baud_rate (uartNew 5) 10 = Option.none ∧
    set_baud_rate (uartNew 100) 9 =
      some { uartNew 100 with div := (100 / 9 - 1) % 65536 } ∧
    configure (uartNew 5) ⟨0, .one, .none, false⟩ = Option.none :=
  ⟨(tock_spec_C10 (uartNew 5) 10).1,
   (tock_spec_C10 (uartNew 5) 10).2.1 (by decide) (by decide),
   (tock_spec_C10 (uartNew 100) 9).2.2.1 (by decide) (by decide),
   (tock_spec_C10 (uartNew 5) 9).2.2.2 ⟨0, .one, .none, false⟩ rfl rfl rfl⟩

end SifiveUart
